import Mathlib

/-!
Verification model of the photools sandboxed filesystem access and
directory-scanning engine (`src/core/services/file_system_service` and
`src/core/services/directory_scanner`, with the data model from
`src/core/models/scan_result.py`).

Paths are modelled as lists of components rooted at `/` (the code runs the
POSIX branch; `os.sep = "/"`, `os.name != "nt"`).  The filesystem is a finite
association list from absolute paths to nodes; symlink targets are absolute.
`Path.resolve(strict=False)` is modelled by `resolvePath` with explicit fuel
(the fuel models the OS symlink-loop limit; running out of fuel is the
resolution error the Python code catches as `OSError`/`RuntimeError`).
-/

/-- One path component, e.g. `"photos"`. -/
abbrev Name := String

/-- An absolute path as its list of components; `[]` is the filesystem root `/`. -/
abbrev AbsPath := List Name

/-- A filesystem node: a regular file (with size, mtime and whether
`os.access(p, R_OK)` holds), a directory, or a symlink to an absolute target. -/
inductive FNode where
  | file (size : Nat) (mtime : Nat) (readable : Bool)
  | dir
  | symlink (target : AbsPath)
deriving DecidableEq, Repr

/-- A finite filesystem: an ordered association list of (path, node).
The list order is the enumeration order of `Path.iterdir()`. -/
structure FS where
  entries : List (AbsPath × FNode)
deriving DecidableEq, Repr

/-- Look a path up in the filesystem (an `lstat`, it does not follow the
final symlink). -/
def FS.node (fs : FS) (p : AbsPath) : Option FNode :=
  (fs.entries.find? (fun e => e.fst == p)).map (·.snd)

/-- `Path.is_symlink()` on a path whose parents are already canonical. -/
def isSymlinkL (fs : FS) (p : AbsPath) : Bool :=
  match fs.node p with
  | some (FNode.symlink _) => true
  | _ => false

/-- Core of `Path.resolve(strict=False)`: process the remaining components
left to right, keeping the already-canonical prefix `acc`.  `.` and empty
components are dropped, `..` removes the last component of the prefix, and a
component that names a symlink restarts from the (absolute) target.
Nonexistent components are kept as-is, as `strict=False` does. -/
def resolveComps (fs : FS) : Nat → AbsPath → List Name → Except Unit AbsPath
  | 0, _, _ => Except.error ()
  | Nat.succ _, acc, [] => Except.ok acc
  | Nat.succ fuel, acc, c :: rest =>
    if c = "" ∨ c = "." then resolveComps fs fuel acc rest
    else if c = ".." then resolveComps fs fuel acc.dropLast rest
    else
      match fs.node (acc ++ [c]) with
      | some (FNode.symlink t) => resolveComps fs fuel [] (t ++ rest)
      | _ => resolveComps fs fuel (acc ++ [c]) rest

/-- `Path(p).resolve(strict=False)`. -/
def resolvePath (fs : FS) (fuel : Nat) (p : AbsPath) : Except Unit AbsPath :=
  resolveComps fs fuel [] p

/-- `os.stat` (follows symlinks): resolve, then look up. -/
def statNode (fs : FS) (fuel : Nat) (p : AbsPath) : Option FNode :=
  match resolvePath fs fuel p with
  | Except.ok q => fs.node q
  | Except.error _ => none

/-- `Path.exists()`. -/
def existsF (fs : FS) (fuel : Nat) (p : AbsPath) : Bool :=
  (statNode fs fuel p).isSome

/-- `Path.is_dir()`. -/
def isDirF (fs : FS) (fuel : Nat) (p : AbsPath) : Bool :=
  match statNode fs fuel p with
  | some FNode.dir => true
  | _ => false

/-- `Path.is_file()`. -/
def isFileF (fs : FS) (fuel : Nat) (p : AbsPath) : Bool :=
  match statNode fs fuel p with
  | some (FNode.file _ _ _) => true
  | _ => false

/-- ASCII lowercasing of one character, as `str.lower()` does on the
characters occurring in paths here. -/
def lowerChar (c : Char) : Char :=
  if 'A' ≤ c ∧ c ≤ 'Z' then Char.ofNat (c.toNat + 32) else c

/-- `str.lower()`. -/
def lowerStr (s : String) : String :=
  String.mk (s.data.map lowerChar)

/-- Substring containment on character lists (Python's `needle in hay`). -/
def listContains (needle : List Char) : List Char → Bool
  | [] => needle.isEmpty
  | c :: t => needle.isPrefixOf (c :: t) || listContains needle t

/-- Python's `pat in s` on strings. -/
def strContainsSub (hay pat : String) : Bool :=
  listContains pat.data hay.data

/-- `str.startswith(prefixStr)`, computed on character lists. -/
def strStarts (pre s : String) : Bool :=
  pre.data.isPrefixOf s.data

/-- `name.startswith(".")`. -/
def startsDot (s : String) : Bool :=
  match s.data with
  | [] => false
  | c :: _ => c == '.'

/-- Split a raw path string on `/` into components, dropping empty ones:
the component view `Path(s).parts` (for the absolute paths used here). -/
def splitCompsAux (cur : List Char) : List Char → List String
  | [] => [String.mk cur.reverse]
  | c :: rest =>
    if c = '/' then String.mk cur.reverse :: splitCompsAux [] rest
    else splitCompsAux (c :: cur) rest

/-- Parse a raw absolute path string into components. -/
def parsePath (s : String) : AbsPath :=
  (splitCompsAux [] s.data).filter (fun c => c ≠ "")

/-- Character list of `str(Path)` for an absolute component list. -/
def renderChars : List Name → List Char
  | [] => []
  | c :: rest => '/' :: (c.data ++ renderChars rest)

/-- `str(Path)`: `/a/b` for `[a, b]`, `/` for the root. -/
def renderPath (p : AbsPath) : String :=
  if p = [] then "/" else String.mk (renderChars p)

/-- `PurePath.suffix` of one file name: from the last dot, provided it is
neither the leading nor the trailing character. -/
def pathSuffix (name : List Char) : List Char :=
  match name.reverse.findIdx? (fun c => c == '.') with
  | none => []
  | some j =>
    let i := name.length - 1 - j
    if 0 < i ∧ i < name.length - 1 then name.drop i else []

/-- `path.suffix.lower()` for a component path. -/
def suffixLower (p : AbsPath) : String :=
  String.mk ((pathSuffix (p.getLastD "").data).map lowerChar)

/-! ## Security constraints (`SecurityConstraints` dataclass) -/

/-- The default allowed photo extensions from `SecurityConstraints.__post_init__`. -/
def defaultAllowedExtensions : List String :=
  [".jpg", ".jpeg", ".png", ".tiff", ".tif", ".bmp", ".webp", ".heic", ".heif",
   ".raw", ".cr2", ".nef", ".arw", ".dng", ".orf", ".raf", ".rw2", ".pef",
   ".srw", ".x3f", ".3fr", ".fff", ".iiq", ".k25", ".kdc", ".mef", ".mos",
   ".mrw", ".nrw", ".ptx", ".r3d", ".rwl", ".sr2", ".srf"]

/-- `SecurityConstraints` with `__post_init__` defaults applied.
(`allowed_drives` is Windows-only and this model takes the POSIX branch.) -/
structure SecurityConstraints where
  max_file_size_mb : Nat := 500
  allowed_extensions : List String := defaultAllowedExtensions
  max_depth : Nat := 10
  follow_symlinks : Bool := false
  skip_hidden_files : Bool := true
  skip_hidden_directories : Bool := true
  max_path_length : Nat := 4096
  block_executable_extensions : Bool := true
  strict_extension_validation : Bool := true
  enable_symlink_escape_detection : Bool := true
  log_security_violations : Bool := true
deriving DecidableEq, Repr

/-- Reasons a `FileSystemSecurityError` is raised (the offending rule). -/
inductive SecErr where
  | nullByte
  | tooLong
  | suspicious (pat : String)
  | traversalAfterResolve
  | resolveFailed
  | notAllowed
  | systemDir
  | dangerousType
  | symlinkNotAllowed
  | hiddenDir
  | hiddenFile
  | finalResolveFailed
  | finalEscape
deriving DecidableEq, Repr

/-- The `suspicious_patterns` list from `_normalize_path`, in source order. -/
def suspiciousPatterns : List String :=
  ["..\\", "../", "..\\\\", "%2e%2e", "%2f", "%5c", "\\\\?\\", "\\\\."]

/-- The purely string-level checks of `_normalize_path`, run before any
filesystem access: null bytes, maximum length, suspicious patterns on the
lowercased raw string. -/
def stringChecks (cons : SecurityConstraints) (s : String) : Option SecErr :=
  if s.data.contains (Char.ofNat 0) then some SecErr.nullByte
  else if s.data.length > cons.max_path_length then some SecErr.tooLong
  else
    match suspiciousPatterns.find? (fun pat => strContainsSub (lowerStr s) pat) with
    | some pat => some (SecErr.suspicious pat)
    | none => none

/-- `SecureFileSystemService._normalize_path`: string checks, then
`Path.resolve(strict=False)`, then the post-resolution `..` re-check. -/
def normalizePath (fs : FS) (cons : SecurityConstraints) (fuel : Nat) (s : String) :
    Except SecErr AbsPath :=
  match stringChecks cons s with
  | some e => Except.error e
  | none =>
    match resolvePath fs fuel (parsePath s) with
    | Except.error _ => Except.error SecErr.resolveFailed
    | Except.ok q =>
      if strContainsSub (renderPath q) "/.." ∨ strContainsSub (renderPath q) "\\..\\"
      then Except.error SecErr.traversalAfterResolve
      else Except.ok q

/-- The walk of `_verify_no_symlink_escape`: extend `cur` one component at a
time; any component that is a symlink must resolve to a path still under
`root`. -/
def verifyWalk (fs : FS) (fuel : Nat) (root : AbsPath) : AbsPath → List Name → Bool
  | _, [] => true
  | cur, c :: rest =>
    let cur' := cur ++ [c]
    if isSymlinkL fs cur' then
      match resolvePath fs fuel cur' with
      | Except.error _ => false
      | Except.ok t => if root.isPrefixOf t then verifyWalk fs fuel root cur' rest else false
    else verifyWalk fs fuel root cur' rest

/-- `SecureFileSystemService._verify_no_symlink_escape`.  A `relative_to`
failure (root not a prefix of the target) is caught and returns `False`. -/
def verifyNoSymlinkEscape (fs : FS) (fuel : Nat) (target root : AbsPath) : Bool :=
  if root.isPrefixOf target then
    verifyWalk fs fuel root root (target.drop root.length)
  else false

/-- Method 2 of `_is_path_allowed`: the string comparison
`abs_path_str == allowed_str or abs_path_str.startswith(allowed_str + os.sep)`. -/
def strPrefixCheck (allowed target : AbsPath) : Bool :=
  renderPath target == renderPath allowed ||
    strStarts (renderPath allowed ++ "/") (renderPath target)

/-- The per-root body of `_is_path_allowed`: `relative_to` (component
containment), the string double-check, and the symlink-escape walk. -/
def allowedDirCheck (fs : FS) (fuel : Nat) (absP root : AbsPath) : Bool :=
  root.isPrefixOf absP && strPrefixCheck root absP && verifyNoSymlinkEscape fs fuel absP root

/-- `SecureFileSystemService._is_path_allowed`.  It re-normalizes the raw
path (so a normalization failure propagates as the exception it raises),
resolves once more, and scans the allowed roots. -/
def isPathAllowed (fs : FS) (roots : List AbsPath) (cons : SecurityConstraints)
    (fuel : Nat) (s : String) : Except SecErr Bool :=
  match normalizePath fs cons fuel s with
  | Except.error e => Except.error e
  | Except.ok n =>
    match resolvePath fs fuel n with
    | Except.error _ => Except.ok false
    | Except.ok absP => Except.ok (roots.any (fun r => allowedDirCheck fs fuel absP r))

/-- The `forbidden_patterns` of `_check_system_directory_access`, in source
order (the Windows drive-letter branch is skipped: `os.name != "nt"`). -/
def forbiddenSystemPatterns : List String :=
  ["/etc/", "/boot/", "/sys/", "/proc/", "/dev/", "/root/", "/var/log/",
   "/var/spool/", "/usr/bin/", "/usr/sbin/", "/sbin/", "/bin/",
   "c:\\windows\\", "c:\\program files\\", "c:\\users\\administrator\\",
   "c:\\users\\default\\", "\\windows\\", "\\program files\\",
   "\\system32\\", "\\syswow64\\"]

/-- `SecureFileSystemService._check_system_directory_access`. -/
def checkSystemDirectoryAccess (p : AbsPath) : Except SecErr Unit :=
  if forbiddenSystemPatterns.any (fun pat => strContainsSub (lowerStr (renderPath p)) pat)
  then Except.error SecErr.systemDir
  else Except.ok ()

/-- The `dangerous_extensions` set of `_check_dangerous_file_types`. -/
def dangerousExtensions : List String :=
  [".exe", ".bat", ".cmd", ".com", ".scr", ".pif", ".vbs", ".vbe", ".js",
   ".jse", ".wsf", ".wsh", ".msi", ".msp", ".dll", ".sys", ".drv",
   ".sh", ".bash", ".zsh", ".csh", ".fish", ".pl", ".py", ".rb", ".lua", ".ps1",
   ".zip", ".rar", ".7z", ".tar", ".gz", ".bz2",
   ".ini", ".cfg", ".conf", ".config", ".plist", ".reg", ".key", ".crt",
   ".pem", ".p12", ".db", ".sqlite", ".mdb", ".accdb",
   ".log", ".tmp", ".temp", ".swp", ".bak"]

/-- `SecureFileSystemService._check_dangerous_file_types`. -/
def checkDangerousFileTypes (fs : FS) (cons : SecurityConstraints) (fuel : Nat)
    (p : AbsPath) : Except SecErr Unit :=
  if !(isFileF fs fuel p) && !(existsF fs fuel p) then Except.ok ()
  else
    if dangerousExtensions.contains (suffixLower p) &&
       !(cons.allowed_extensions.contains (suffixLower p))
    then Except.error SecErr.dangerousType
    else Except.ok ()

/-- `SecureFileSystemService.validate_path_access`, the full check chain:
normalize, allowed-directory containment, system-directory denylist,
dangerous file types, symlink policy, hidden file/directory policy, and the
final re-resolve-and-re-check. -/
def validatePathAccess (fs : FS) (roots : List AbsPath) (cons : SecurityConstraints)
    (fuel : Nat) (s : String) : Except SecErr Unit :=
  match normalizePath fs cons fuel s with
  | Except.error e => Except.error e
  | Except.ok n =>
    match isPathAllowed fs roots cons fuel s with
    | Except.error e => Except.error e
    | Except.ok false => Except.error SecErr.notAllowed
    | Except.ok true =>
      match checkSystemDirectoryAccess n with
      | Except.error e => Except.error e
      | Except.ok _ =>
        match checkDangerousFileTypes fs cons fuel n with
        | Except.error e => Except.error e
        | Except.ok _ =>
          if isSymlinkL fs n && !cons.follow_symlinks then
            Except.error SecErr.symlinkNotAllowed
          else
            if startsDot (n.getLastD "") &&
               (isDirF fs fuel n && cons.skip_hidden_directories) then
              Except.error SecErr.hiddenDir
            else if startsDot (n.getLastD "") &&
               (!(isDirF fs fuel n && cons.skip_hidden_directories) &&
                (isFileF fs fuel n && cons.skip_hidden_files)) then
              Except.error SecErr.hiddenFile
            else
              match resolvePath fs fuel n with
              | Except.error _ => Except.error SecErr.finalResolveFailed
              | Except.ok fr =>
                match isPathAllowed fs roots cons fuel (renderPath fr) with
                | Except.error e => Except.error e
                | Except.ok false => Except.error SecErr.finalEscape
                | Except.ok true => Except.ok ()

/-! ## Access classification and file information -/

/-- `AccessLevel` enumeration. -/
inductive AccessLevel where
  | read_only
  | metadata_only
  | no_access
deriving DecidableEq, Repr

/-- `FileSystemEntry` dataclass. -/
structure FileSystemEntry where
  path : AbsPath
  is_directory : Bool
  size : Nat
  access_level : AccessLevel
  permissions : String
  last_modified : Nat
  is_symlink : Bool := false
  error : Option String := none
deriving DecidableEq, Repr

/-- Human-readable message of a `FileSystemSecurityError` (all non-empty). -/
def secErrMsg : SecErr → String
  | SecErr.nullByte => "Null byte detected in path"
  | SecErr.tooLong => "Path too long"
  | SecErr.suspicious pat => "Suspicious path pattern detected: " ++ pat
  | SecErr.traversalAfterResolve => "Path traversal detected after resolution"
  | SecErr.resolveFailed => "Invalid path"
  | SecErr.notAllowed => "SECURITY VIOLATION: Path not in allowed directories"
  | SecErr.systemDir => "SECURITY VIOLATION: Access to system directory denied"
  | SecErr.dangerousType => "SECURITY VIOLATION: Dangerous file type not allowed"
  | SecErr.symlinkNotAllowed => "SECURITY VIOLATION: Symlinks not allowed"
  | SecErr.hiddenDir => "SECURITY VIOLATION: Hidden directories not allowed"
  | SecErr.hiddenFile => "SECURITY VIOLATION: Hidden files not allowed"
  | SecErr.finalResolveFailed => "SECURITY VIOLATION: Cannot resolve path safely"
  | SecErr.finalEscape => "SECURITY VIOLATION: Resolved path escapes allowed directories"

/-- `SecureFileSystemService._check_file_constraints`: size limit, extension
allow-list, read permission, in that order; any stat failure is `NO_ACCESS`.
(Only non-directory paths reach this function, from `get_file_info`.) -/
def checkFileConstraints (fs : FS) (cons : SecurityConstraints) (fuel : Nat)
    (p : AbsPath) : AccessLevel :=
  match statNode fs fuel p with
  | some (FNode.file sz _ readable) =>
    if sz > cons.max_file_size_mb * 1024 * 1024 then AccessLevel.no_access
    else if !(cons.allowed_extensions.contains (suffixLower p)) then AccessLevel.no_access
    else if !readable then AccessLevel.no_access
    else AccessLevel.read_only
  | _ => AccessLevel.no_access

/-- `_get_file_permissions_string`: a human-readable mode string, or
`"unknown"` when stat fails.  The exact mode text is irrelevant here. -/
def permissionsString (fs : FS) (fuel : Nat) (p : AbsPath) : String :=
  match statNode fs fuel p with
  | some _ => "-r--r--r--"
  | none => "unknown"

/-- `SecureFileSystemService.get_file_info`: validate, then stat and
classify; a security error or an unexpected error yields a `NO_ACCESS` entry
carrying the error message, a missing file yields `"File not found"`. -/
def getFileInfo (fs : FS) (roots : List AbsPath) (cons : SecurityConstraints)
    (fuel : Nat) (s : String) : FileSystemEntry :=
  match validatePathAccess fs roots cons fuel s with
  | Except.error e =>
    { path := parsePath s, is_directory := false, size := 0,
      access_level := AccessLevel.no_access, permissions := "",
      last_modified := 0, is_symlink := false, error := some (secErrMsg e) }
  | Except.ok _ =>
    match normalizePath fs cons fuel s with
    | Except.error e =>
      { path := parsePath s, is_directory := false, size := 0,
        access_level := AccessLevel.no_access, permissions := "",
        last_modified := 0, is_symlink := false, error := some (secErrMsg e) }
    | Except.ok n =>
      match statNode fs fuel n with
      | none =>
        { path := n, is_directory := false, size := 0,
          access_level := AccessLevel.no_access, permissions := "",
          last_modified := 0, is_symlink := false, error := some "File not found" }
      | some st =>
        let isDirB : Bool := match st with | FNode.dir => true | _ => false
        let sz : Nat := match st with | FNode.file v _ _ => v | _ => 0
        let mt : Nat := match st with | FNode.file _ v _ => v | _ => 0
        { path := n, is_directory := isDirB, size := sz,
          access_level := if isDirB then AccessLevel.read_only
                          else checkFileConstraints fs cons fuel n,
          permissions := permissionsString fs fuel n, last_modified := mt,
          is_symlink := isSymlinkL fs n, error := none }

/-- The children of a directory, in `Path.iterdir()` (entry list) order. -/
def childrenOf (fs : FS) (dir : AbsPath) : List (AbsPath × FNode) :=
  fs.entries.filter (fun e => e.fst.dropLast == dir && e.fst.length == dir.length + 1)

/-- The body of `_list_directory_recursive` for one child: the produced
entries (empty when skipped or `NO_ACCESS`) and whether to recurse into it. -/
def listDirItem (fs : FS) (roots : List AbsPath) (cons : SecurityConstraints)
    (fuel : Nat) (p : AbsPath) : List FileSystemEntry × Bool :=
  let name := p.getLastD ""
  if startsDot name &&
     ((isDirF fs fuel p && cons.skip_hidden_directories) ||
      (isFileF fs fuel p && cons.skip_hidden_files)) then ([], false)
  else if isSymlinkL fs p && !cons.follow_symlinks then ([], false)
  else
    let info := getFileInfo fs roots cons fuel (renderPath p)
    let kept := if info.access_level != AccessLevel.no_access then [info] else []
    (kept, isDirF fs fuel p && info.access_level != AccessLevel.no_access)

/-- `SecureFileSystemService._list_directory_recursive`; `depthFuel` is
`max_depth - current_depth`, so recursion happens only while it is positive. -/
def listDirRec (fs : FS) (roots : List AbsPath) (cons : SecurityConstraints)
    (fuel : Nat) : Nat → AbsPath → List FileSystemEntry
  | 0, dir =>
    (childrenOf fs dir).flatMap (fun e => (listDirItem fs roots cons fuel e.fst).fst)
  | Nat.succ d, dir =>
    (childrenOf fs dir).flatMap (fun e =>
      let item := listDirItem fs roots cons fuel e.fst
      item.fst ++ (if item.snd then listDirRec fs roots cons fuel d e.fst else []))

/-- `SecureFileSystemService.list_directory`: any security error or a
non-directory path yields the empty list (the code catches every exception
and returns `[]`). -/
def listDirectory (fs : FS) (roots : List AbsPath) (cons : SecurityConstraints)
    (fuel : Nat) (s : String) (recursive : Bool) (maxDepth : Option Nat) :
    List FileSystemEntry :=
  match validatePathAccess fs roots cons fuel s with
  | Except.error _ => []
  | Except.ok _ =>
    match normalizePath fs cons fuel s with
    | Except.error _ => []
    | Except.ok n =>
      if !(isDirF fs fuel n) then []
      else
        let eff := match maxDepth with
          | some d => if d = 0 then cons.max_depth else d
          | none => cons.max_depth
        listDirRec fs roots cons fuel (if recursive then eff else 0) n

/-- `SecureFileSystemService.get_photo_files`: list, then keep non-directory
entries with `READ_ONLY` access and an allowed extension. -/
def getPhotoFiles (fs : FS) (roots : List AbsPath) (cons : SecurityConstraints)
    (fuel : Nat) (s : String) (recursive : Bool) : List FileSystemEntry :=
  (listDirectory fs roots cons fuel s recursive none).filter (fun e =>
    !e.is_directory && e.access_level == AccessLevel.read_only &&
      cons.allowed_extensions.contains (suffixLower e.path))

/-! ## Scanner data model (`src/core/models/scan_result.py`) -/

/-- `ScanStrategy` enumeration. -/
inductive ScanStrategy where
  | fast_metadata_only
  | full_metadata
  | incremental
deriving DecidableEq, Repr

/-- `ScanStatus` enumeration. -/
inductive ScanStatus where
  | pending
  | running
  | completed
  | failed
  | cancelled
deriving DecidableEq, Repr

/-- `ScanProgress` dataclass (times are abstract ticks). -/
structure ScanProgress where
  total_files : Nat := 0
  processed_files : Nat := 0
  successful_files : Nat := 0
  failed_files : Nat := 0
  current_file : Option String := none
  start_time : Option Nat := none
  estimated_completion : Option Nat := none
  errors : List String := []
deriving DecidableEq, Repr

/-- `ScanProgress.progress_percent`: `processed / total * 100`, and `0` when
`total_files == 0` (exact rational arithmetic models the float division). -/
def progressPercent (p : ScanProgress) : ℚ :=
  if p.total_files = 0 then 0
  else ((p.processed_files : ℚ) / (p.total_files : ℚ)) * 100

/-- `ScanProgress.is_complete`. -/
def progressIsComplete (p : ScanProgress) : Bool :=
  p.total_files ≤ p.processed_files

/-- `ScanOptions` dataclass.  `progress_callback` is an external observer
that cannot change any result and is not part of the value model. -/
structure ScanOptions where
  strategy : ScanStrategy := ScanStrategy.full_metadata
  recursive : Bool := true
  max_files : Option Nat := none
  batch_size : Nat := 50
  include_metadata : Bool := true
  include_thumbnails : Bool := false
  skip_duplicates : Bool := true
deriving DecidableEq, Repr

/-- One element of `ScanResult.files`: the per-file dict built by the fast
scan or by the full scan. -/
inductive FileRecord where
  | fastRec (file_path : String) (file_size : Nat) (last_modified : Nat)
      (access_level : AccessLevel) (is_symlink : Bool) (scan_strategy : ScanStrategy)
  | fullRec (file_path : String) (metadata : String) (access_level : AccessLevel)
      (permissions : String) (is_symlink : Bool) (scan_strategy : ScanStrategy)
deriving DecidableEq, Repr

/-- `ScanResult` dataclass. -/
structure ScanResult where
  directory : String
  scan_id : String
  status : ScanStatus
  strategy : ScanStrategy
  total_files : Nat
  processed_files : Nat
  successful_files : Nat
  failed_files : Nat
  files : List FileRecord
  errors : List String
  start_time : Nat
  end_time : Nat
deriving DecidableEq, Repr

/-- `ScanResult.success_rate`. -/
def successRate (r : ScanResult) : ℚ :=
  if r.processed_files = 0 then 0
  else ((r.successful_files : ℚ) / (r.processed_files : ℚ)) * 100

/-! ## Scanner (`src/core/services/directory_scanner`) -/

/-- Errors of `SecureDirectoryScanner.validate_scan_request`. -/
inductive ScanErr where
  | security (e : SecErr)
  | notExists
  | notADirectory
  | badMaxFiles
  | badBatchSize
deriving DecidableEq, Repr

/-- `str(e)` of a scan-request error (all non-empty). -/
def scanErrMsg : ScanErr → String
  | ScanErr.security e => secErrMsg e
  | ScanErr.notExists => "Directory does not exist"
  | ScanErr.notADirectory => "Path is not a directory"
  | ScanErr.badMaxFiles => "max_files must be positive"
  | ScanErr.badBatchSize => "batch_size must be positive"

/-- `SecureDirectoryScanner.validate_scan_request`: security validation,
existence, directory-ness, and option sanity. -/
def validateScanRequest (fs : FS) (roots : List AbsPath) (cons : SecurityConstraints)
    (fuel : Nat) (s : String) (opts : ScanOptions) : Except ScanErr Unit :=
  match validatePathAccess fs roots cons fuel s with
  | Except.error e => Except.error (ScanErr.security e)
  | Except.ok _ =>
    if !(existsF fs fuel (parsePath s)) then Except.error ScanErr.notExists
    else if !(isDirF fs fuel (parsePath s)) then Except.error ScanErr.notADirectory
    else
      match opts.max_files with
      | some 0 => Except.error ScanErr.badMaxFiles
      | _ =>
        if opts.batch_size = 0 then Except.error ScanErr.badBatchSize
        else Except.ok ()

/-- `photo_files[: options.max_files]` guarded by Python truthiness
(`if options.max_files:`), applied before any processing. -/
def truncateFiles (maxFiles : Option Nat) (photos : List FileSystemEntry) :
    List FileSystemEntry :=
  match maxFiles with
  | some m => if m ≠ 0 then photos.take m else photos
  | none => photos

/-- The fast-scan per-file dict for one accepted entry. -/
def fastRecordOf (strat : ScanStrategy) (e : FileSystemEntry) : FileRecord :=
  FileRecord.fastRec (renderPath e.path) e.size e.last_modified e.access_level
    e.is_symlink strat

/-- The per-file loop of `scan_directory_fast`.  Returns the final progress,
the accumulated result dicts, and the trace of progress states at which the
progress callback fires (after `processed_files = i + 1` is set and before
`successful_files` is incremented, exactly as in the code). -/
def fastLoopAux (strat : ScanStrategy) (prog : ScanProgress) :
    List FileSystemEntry → ScanProgress × List FileRecord × List ScanProgress
  | [] => (prog, [], [])
  | e :: rest =>
    let p1 := { prog with current_file := some (renderPath e.path),
                          processed_files := prog.processed_files + 1 }
    let p2 := { p1 with successful_files := p1.successful_files + 1 }
    let out := fastLoopAux strat p2 rest
    (out.fst, fastRecordOf strat e :: out.snd.fst, p1 :: out.snd.snd)

/-- The per-file loop of `scan_directory_full`: extract metadata for each
entry; a failure appends a per-file error, bumps `failed_files` and
continues with the next entry. -/
def fullLoopAux (extract : String → Except String String) (strat : ScanStrategy)
    (prog : ScanProgress) :
    List FileSystemEntry → ScanProgress × List FileRecord × List ScanProgress
  | [] => (prog, [], [])
  | e :: rest =>
    let p1 := { prog with current_file := some (renderPath e.path),
                          processed_files := prog.processed_files + 1 }
    match extract (renderPath e.path) with
    | Except.ok md =>
      let p2 := { p1 with successful_files := p1.successful_files + 1 }
      let out := fullLoopAux extract strat p2 rest
      (out.fst,
       FileRecord.fullRec (renderPath e.path) md e.access_level e.permissions
         e.is_symlink strat :: out.snd.fst,
       p1 :: out.snd.snd)
    | Except.error msg =>
      let p2 := { p1 with
        errors := p1.errors ++ ["Failed to process " ++ renderPath e.path ++ ": " ++ msg],
        failed_files := p1.failed_files + 1 }
      let out := fullLoopAux extract strat p2 rest
      (out.fst, out.snd.fst, p1 :: out.snd.snd)

/-- The `except`-branch `ScanResult` of either scan method. -/
def failedScanResult (dirStr scanId : String) (strat : ScanStrategy)
    (msg : String) (now : Nat) : ScanResult :=
  { directory := dirStr, scan_id := scanId, status := ScanStatus.failed,
    strategy := strat, total_files := 0, processed_files := 0,
    successful_files := 0, failed_files := 1, files := [], errors := [msg],
    start_time := now, end_time := now }

/-- `str(e)` of the `KeyError` raised by `del self._active_scans[scan_id]`
after `cancel_scan` already removed the entry. -/
def keyErrorMsg (scanId : String) : String :=
  "KeyError: " ++ scanId

/-- `SecureDirectoryScanner.scan_directory_fast` together with its progress
trace.  `cancel` records whether `cancel_scan(scan_id)` was invoked while
the scan was running: the loop never consults the registry, and the final
`del self._active_scans[scan_id]` then raises `KeyError`, which the generic
`except` turns into a FAILED result. -/
def scanFastCore (fs : FS) (roots : List AbsPath) (cons : SecurityConstraints)
    (fuel : Nat) (now : Nat) (s : String) (opts : ScanOptions) (cancel : Bool) :
    ScanResult × List ScanProgress :=
  let scanId := "fast_scan_" ++ toString now
  match validateScanRequest fs roots cons fuel s opts with
  | Except.error e => (failedScanResult s scanId opts.strategy (scanErrMsg e) now, [])
  | Except.ok _ =>
    let photos := getPhotoFiles fs roots cons fuel s opts.recursive
    let files := truncateFiles opts.max_files photos
    let prog1 : ScanProgress := { start_time := some now, total_files := files.length }
    let out := fastLoopAux opts.strategy prog1 files
    if cancel then
      (failedScanResult s scanId opts.strategy (keyErrorMsg scanId) now, out.snd.snd)
    else
      ({ directory := s, scan_id := scanId, status := ScanStatus.completed,
         strategy := opts.strategy, total_files := out.snd.fst.length,
         processed_files := out.snd.fst.length,
         successful_files := out.fst.successful_files,
         failed_files := out.fst.failed_files, files := out.snd.fst,
         errors := out.fst.errors, start_time := now, end_time := now },
       out.snd.snd)

/-- `SecureDirectoryScanner.scan_directory_fast`. -/
def scanDirectoryFast (fs : FS) (roots : List AbsPath) (cons : SecurityConstraints)
    (fuel : Nat) (now : Nat) (s : String) (opts : ScanOptions) (cancel : Bool) :
    ScanResult :=
  (scanFastCore fs roots cons fuel now s opts cancel).fst

/-- `SecureDirectoryScanner.scan_directory_full` together with its progress
trace; `extract` is the external `PhotoProcessor.process_photo` collaborator
and `cancel` is as in `scanFastCore`. -/
def scanFullCore (fs : FS) (roots : List AbsPath) (cons : SecurityConstraints)
    (fuel : Nat) (now : Nat) (s : String) (opts : ScanOptions)
    (extract : String → Except String String) (cancel : Bool) :
    ScanResult × List ScanProgress :=
  let scanId := "full_scan_" ++ toString now
  match validateScanRequest fs roots cons fuel s opts with
  | Except.error e => (failedScanResult s scanId opts.strategy (scanErrMsg e) now, [])
  | Except.ok _ =>
    let photos := getPhotoFiles fs roots cons fuel s opts.recursive
    let files := truncateFiles opts.max_files photos
    let prog1 : ScanProgress := { start_time := some now, total_files := files.length }
    let out := fullLoopAux extract opts.strategy prog1 files
    if cancel then
      (failedScanResult s scanId opts.strategy (keyErrorMsg scanId) now, out.snd.snd)
    else
      ({ directory := s, scan_id := scanId, status := ScanStatus.completed,
         strategy := opts.strategy, total_files := files.length,
         processed_files := out.fst.processed_files,
         successful_files := out.fst.successful_files,
         failed_files := out.fst.failed_files, files := out.snd.fst,
         errors := out.fst.errors, start_time := now, end_time := now },
       out.snd.snd)

/-- `SecureDirectoryScanner.scan_directory_full`. -/
def scanDirectoryFull (fs : FS) (roots : List AbsPath) (cons : SecurityConstraints)
    (fuel : Nat) (now : Nat) (s : String) (opts : ScanOptions)
    (extract : String → Except String String) (cancel : Bool) : ScanResult :=
  (scanFullCore fs roots cons fuel now s opts extract cancel).fst

/-- `SecureDirectoryScanner.scan_directory`, the strategy dispatch: the
INCREMENTAL branch logs a warning, overwrites `options.strategy` with
FULL_METADATA and falls through to the full scan. -/
def scanDirectory (fs : FS) (roots : List AbsPath) (cons : SecurityConstraints)
    (fuel : Nat) (now : Nat) (s : String) (opts : ScanOptions)
    (extract : String → Except String String) (cancel : Bool) : ScanResult :=
  match opts.strategy with
  | ScanStrategy.fast_metadata_only => scanDirectoryFast fs roots cons fuel now s opts cancel
  | ScanStrategy.full_metadata => scanDirectoryFull fs roots cons fuel now s opts extract cancel
  | ScanStrategy.incremental =>
    scanDirectoryFull fs roots cons fuel now s
      { opts with strategy := ScanStrategy.full_metadata } extract cancel

/-- `SecureDirectoryScanner.cancel_scan` acting on the `_active_scans`
registry (modelled by its key list): it only removes the entry. -/
def cancelScan (activeScans : List String) (scanId : String) : List String × Bool :=
  if activeScans.contains scanId then (activeScans.erase scanId, true)
  else (activeScans, false)

/-! ## Concrete filesystems used by the witnesses -/

/-- The allowed roots: a single `/photos` sandbox. -/
def rootsP : List AbsPath := [["photos"]]

/-- Default constraints. -/
def defCons : SecurityConstraints := {}

/-- A well-behaved sandbox: `/photos` with one small readable photo. -/
def fsGood : FS :=
  { entries := [(["photos"], FNode.dir),
                (["photos", "img.jpg"], FNode.file 100 5 true)] }

/-- Escape-and-return symlinks: `/photos/evil -> /outside`,
`/outside/back -> /photos/safe`. -/
def fsBounce : FS :=
  { entries := [(["photos"], FNode.dir),
                (["photos", "evil"], FNode.symlink ["outside"]),
                (["outside"], FNode.dir),
                (["outside", "back"], FNode.symlink ["photos", "safe"]),
                (["photos", "safe"], FNode.dir),
                (["photos", "safe", "img.jpg"], FNode.file 100 5 true)] }

/-- A sandbox with an oversized photo (600 MiB against a 500 MB limit). -/
def fsBig : FS :=
  { entries := [(["photos"], FNode.dir),
                (["photos", "big.jpg"], FNode.file 629145600 5 true)] }

/-- A sandbox with two small photos, for the scan witnesses. -/
def fsScan : FS :=
  { entries := [(["photos"], FNode.dir),
                (["photos", "a.jpg"], FNode.file 10 1 true),
                (["photos", "b.jpg"], FNode.file 20 2 true)] }

/-- A sandbox with ten eligible photos, for the `max_files` witness. -/
def fsTen : FS :=
  { entries := [(["photos"], FNode.dir),
                (["photos", "c0.jpg"], FNode.file 10 1 true),
                (["photos", "c1.jpg"], FNode.file 10 1 true),
                (["photos", "c2.jpg"], FNode.file 10 1 true),
                (["photos", "c3.jpg"], FNode.file 10 1 true),
                (["photos", "c4.jpg"], FNode.file 10 1 true),
                (["photos", "c5.jpg"], FNode.file 10 1 true),
                (["photos", "c6.jpg"], FNode.file 10 1 true),
                (["photos", "c7.jpg"], FNode.file 10 1 true),
                (["photos", "c8.jpg"], FNode.file 10 1 true),
                (["photos", "c9.jpg"], FNode.file 10 1 true)] }

/-! ## Properties of path resolution -/

/-- A canonical path: no component is empty, `.` or `..`, and no nonempty
component-prefix of it names a symlink. -/
def accClean (fs : FS) (p : AbsPath) : Prop :=
  (∀ q, q ≠ [] → q <+: p → isSymlinkL fs q = false) ∧
  (∀ c ∈ p, ¬(c = "" ∨ c = ".") ∧ c ≠ "..")

lemma accClean_nil (fs : FS) : accClean fs [] := by
  constructor
  · intro q hq hpre
    exact absurd (List.prefix_nil.mp hpre) hq
  · intro c hc
    exact absurd hc (List.not_mem_nil c)

lemma accClean_dropLast (fs : FS) (p : AbsPath) (h : accClean fs p) :
    accClean fs p.dropLast := by
  obtain ⟨h1, h2⟩ := h
  constructor
  · intro q hq hpre
    exact h1 q hq (hpre.trans (List.dropLast_prefix p))
  · intro c hc
    exact h2 c ((List.dropLast_sublist p).subset hc)

lemma accClean_snoc (fs : FS) (acc : AbsPath) (c : Name)
    (hclean : accClean fs acc)
    (hc1 : ¬(c = "" ∨ c = ".")) (hc2 : ¬(c = ".."))
    (hnode : isSymlinkL fs (acc ++ [c]) = false) :
    accClean fs (acc ++ [c]) := by
  obtain ⟨h1, h2⟩ := hclean
  constructor
  · intro q hq hpre
    obtain ⟨t, ht⟩ := hpre
    cases t with
    | nil =>
      rw [List.append_nil] at ht
      rw [ht]
      exact hnode
    | cons x xs =>
      have hlen : q.length + (x :: xs).length = acc.length + 1 := by
        have := congrArg List.length ht
        simpa using this
      have hqacc : q <+: acc := by
        apply List.prefix_of_prefix_length_le ⟨x :: xs, ht⟩ (List.prefix_append acc [c])
        simp at hlen ⊢
        omega
      exact h1 q hq hqacc
  · intro d hd
    rcases List.mem_append.mp hd with hmem | hmem
    · exact h2 d hmem
    · have : d = c := by simpa using hmem
      subst this
      exact ⟨hc1, hc2⟩

lemma resolveComps_fuel_bound (fs : FS) :
    ∀ fuel acc rest q, resolveComps fs fuel acc rest = Except.ok q →
      q.length + 1 ≤ fuel + acc.length := by
  intro fuel
  induction fuel with
  | zero =>
    intro acc rest q h
    simp [resolveComps] at h
  | succ f ih =>
    intro acc rest q h
    cases rest with
    | nil =>
      simp [resolveComps] at h
      subst h
      omega
    | cons c cs =>
      rw [resolveComps] at h
      split at h
      · have := ih _ _ _ h
        omega
      · split at h
        · have := ih _ _ _ h
          have hd := List.length_dropLast acc
          omega
        · split at h
          · have := ih _ _ _ h
            simp at this
            omega
          · have := ih _ _ _ h
            simp [List.length_append] at this
            omega

lemma resolveComps_clean (fs : FS) :
    ∀ fuel acc rest q, accClean fs acc →
      resolveComps fs fuel acc rest = Except.ok q → accClean fs q := by
  intro fuel
  induction fuel with
  | zero =>
    intro acc rest q hc h
    simp [resolveComps] at h
  | succ f ih =>
    intro acc rest q hc h
    cases rest with
    | nil =>
      simp [resolveComps] at h
      subst h
      exact hc
    | cons c cs =>
      rw [resolveComps] at h
      split at h
      · exact ih _ _ _ hc h
      · split at h
        · exact ih _ _ _ (accClean_dropLast fs acc hc) h
        · split at h
          · exact ih _ _ _ (accClean_nil fs) h
          · rename_i hnotlink
            apply ih _ _ _ _ h
            have hne1 : ¬(c = "" ∨ c = ".") := by assumption
            have hne2 : ¬(c = "..") := by assumption
            apply accClean_snoc fs acc c hc hne1 hne2
            unfold isSymlinkL
            cases hn : fs.node (acc ++ [c]) with
            | none => rfl
            | some nd =>
              cases nd with
              | file sz mt rd => rfl
              | dir => rfl
              | symlink t => exact absurd hn (hnotlink t)

lemma resolveComps_self (fs : FS) :
    ∀ rest acc fuel, accClean fs (acc ++ rest) → rest.length + 1 ≤ fuel →
      resolveComps fs fuel acc rest = Except.ok (acc ++ rest) := by
  intro rest
  induction rest with
  | nil =>
    intro acc fuel hc hf
    cases fuel with
    | zero => omega
    | succ f => simp [resolveComps]
  | cons c cs ih =>
    intro acc fuel hc hf
    cases fuel with
    | zero => omega
    | succ f =>
      rw [resolveComps]
      have hcmem := hc.2 c (by simp)
      rw [if_neg hcmem.1, if_neg hcmem.2]
      have hlink : isSymlinkL fs (acc ++ [c]) = false := by
        apply hc.1 (acc ++ [c]) (by simp)
        exact ⟨cs, by simp⟩
      have hstep : accClean fs ((acc ++ [c]) ++ cs) := by
        simpa using hc
      have hrec := ih (acc ++ [c]) f hstep (by simp at hf ⊢; omega)
      unfold isSymlinkL at hlink
      cases hn : fs.node (acc ++ [c]) with
      | none =>
        simpa using hrec
      | some nd =>
        cases nd with
        | file sz mt rd =>
          simpa using hrec
        | dir =>
          simpa using hrec
        | symlink t =>
          rw [hn] at hlink
          simp at hlink

/-- `Path.resolve` is idempotent: resolving an already-resolved path with
the same fuel returns it unchanged. -/
lemma resolvePath_idem (fs : FS) (fuel : Nat) (p q : AbsPath)
    (h : resolvePath fs fuel p = Except.ok q) :
    resolvePath fs fuel q = Except.ok q := by
  have hclean := resolveComps_clean fs fuel [] p q (accClean_nil fs) h
  have hb := resolveComps_fuel_bound fs fuel [] p q h
  have hself := resolveComps_self fs q [] fuel (by simpa using hclean) (by simpa using hb)
  simpa [resolvePath] using hself

/-! ## Inversion lemmas for the validation chain -/

lemma normalize_ok_resolve (fs : FS) (cons : SecurityConstraints) (fuel : Nat)
    (s : String) (n : AbsPath)
    (h : normalizePath fs cons fuel s = Except.ok n) :
    resolvePath fs fuel (parsePath s) = Except.ok n := by
  unfold normalizePath at h
  split at h
  · simp at h
  · split at h
    · simp at h
    · rename_i heq
      split at h
      · simp at h
      · simp at h
        rw [← h]
        exact heq

lemma isPathAllowed_true_inv (fs : FS) (roots : List AbsPath)
    (cons : SecurityConstraints) (fuel : Nat) (s : String)
    (h : isPathAllowed fs roots cons fuel s = Except.ok true) :
    ∃ n absP, normalizePath fs cons fuel s = Except.ok n ∧
      resolvePath fs fuel n = Except.ok absP ∧
      ∃ r ∈ roots, r <+: absP := by
  unfold isPathAllowed at h
  split at h
  · simp at h
  · rename_i n hn
    split at h
    · simp at h
    · rename_i absP habs
      simp only [Except.ok.injEq] at h
      obtain ⟨r, hr, hcheck⟩ := List.any_eq_true.mp h
      unfold allowedDirCheck at hcheck
      simp only [Bool.and_eq_true] at hcheck
      exact ⟨n, absP, hn, habs, r, hr,
        List.isPrefixOf_iff_prefix.mp hcheck.1.1⟩

lemma validate_ok_inv (fs : FS) (roots : List AbsPath)
    (cons : SecurityConstraints) (fuel : Nat) (s : String)
    (h : validatePathAccess fs roots cons fuel s = Except.ok ()) :
    (∃ n, normalizePath fs cons fuel s = Except.ok n) ∧
    isPathAllowed fs roots cons fuel s = Except.ok true := by
  unfold validatePathAccess at h
  split at h
  · simp at h
  · rename_i n hn
    split at h
    · simp at h
    · simp at h
    · rename_i hall
      exact ⟨⟨n, hn⟩, hall⟩

/-- C1: `validate_path_access(P)` succeeds only if the final resolved form
of P is equal to, or a descendant of, at least one configured allowed root —
for every filesystem (so in particular when P contains `..` components or
resolves through symlinks). -/
theorem c1_containment (fs : FS) (roots : List AbsPath)
    (cons : SecurityConstraints) (fuel : Nat) (s : String)
    (h : validatePathAccess fs roots cons fuel s = Except.ok ()) :
    ∃ q, resolvePath fs fuel (parsePath s) = Except.ok q ∧
      ∃ r ∈ roots, r <+: q := by
  obtain ⟨⟨n, hn⟩, hallow⟩ := validate_ok_inv fs roots cons fuel s h
  obtain ⟨n', absP, hn', habs, r, hr, hpre⟩ :=
    isPathAllowed_true_inv fs roots cons fuel s hallow
  have hnn : n' = n := by
    rw [hn] at hn'
    exact (Except.ok.injEq _ _).mp hn'.symm
  subst hnn
  have hres := normalize_ok_resolve fs cons fuel s n' hn
  have hid := resolvePath_idem fs fuel (parsePath s) n' hres
  have habsn : absP = n' := by
    rw [hid] at habs
    exact ((Except.ok.injEq _ _).mp habs).symm
  subst habsn
  exact ⟨absP, hres, r, hr, hpre⟩

/-- Witness for C1: a concrete accepted path inside `/photos`, with the
containment conclusion it guarantees. -/
theorem c1_containment_witness :
    validatePathAccess fsGood rootsP defCons 64 "/photos/img.jpg" = Except.ok () ∧
    ∃ q, resolvePath fsGood 64 (parsePath "/photos/img.jpg") = Except.ok q ∧
      ∃ r ∈ rootsP, r <+: q := by
  constructor
  · rfl
  · exact c1_containment fsGood rootsP defCons 64 "/photos/img.jpg" (by rfl)

/-! ## C3: suspicious raw-string patterns are rejected before resolution -/

lemma prefix_map_lower (p h : List Char) (hp : p.isPrefixOf h = true) :
    (p.map lowerChar).isPrefixOf (h.map lowerChar) = true := by
  rw [ List.isPrefixOf_iff_prefix] at hp ⊢
  obtain ⟨t, rfl⟩ := hp
  exact ⟨t.map lowerChar, by simp⟩

lemma listContains_map_lower :
    ∀ (h n : List Char), listContains n h = true →
      listContains (n.map lowerChar) (h.map lowerChar) = true := by
  intro h
  induction h with
  | nil =>
    intro n hc
    simp [listContains] at hc ⊢
    simp [hc]
  | cons c cs ih =>
    intro n hc
    rw [listContains] at hc
    rcases Bool.or_eq_true_iff.mp hc with hpre | hrec
    · have := prefix_map_lower n (c :: cs) hpre
      rw [List.map_cons] at this
      rw [List.map_cons, listContains]
      exact Bool.or_eq_true_iff.mpr (Or.inl this)
    · rw [List.map_cons, listContains]
      exact Bool.or_eq_true_iff.mpr (Or.inr (ih n hrec))

/-- The raw traversal markers named by claim C3 (a subset of
`suspiciousPatterns`, each fixed by lowercasing). -/
def claimPatterns : List String :=
  ["../", "..\\", "%2e%2e", "%2f", "%5c", "\\\\?\\", "\\\\."]

lemma lowered_contains (s pat : String)
    (hfix : List.map lowerChar pat.data = pat.data)
    (hc : strContainsSub s pat = true) :
    strContainsSub (lowerStr s) pat = true := by
  unfold strContainsSub at hc ⊢
  have hmap := listContains_map_lower s.data pat.data hc
  rw [hfix] at hmap
  exact hmap

lemma stringChecks_isSome_of_pattern (cons : SecurityConstraints) (s : String)
    (hpat : ∃ pat ∈ suspiciousPatterns, strContainsSub (lowerStr s) pat = true) :
    ∃ e, stringChecks cons s = some e := by
  unfold stringChecks
  split
  · exact ⟨_, rfl⟩
  · split
    · exact ⟨_, rfl⟩
    · cases hf : suspiciousPatterns.find? (fun pat => strContainsSub (lowerStr s) pat) with
      | some pat => exact ⟨_, rfl⟩
      | none =>
        obtain ⟨pat, hmem, hc⟩ := hpat
        have hsome : (suspiciousPatterns.find? (fun pat => strContainsSub (lowerStr s) pat)).isSome := by
          rw [List.find?_isSome]
          exact ⟨pat, hmem, hc⟩
        rw [hf] at hsome
        simp at hsome

/-- C3: a candidate path whose raw string contains `../`, `..\`, a
URL-encoded traversal sequence or a UNC/device-namespace marker is rejected
by `validate_path_access` with one fixed security violation that does not
depend on the filesystem at all — so the rejection happens before any path
resolution or directory enumeration. -/
theorem c3_suspicious_rejected (roots : List AbsPath) (cons : SecurityConstraints)
    (fuel : Nat) (s : String)
    (h : claimPatterns.any (fun pat => strContainsSub s pat) = true) :
    ∃ e, ∀ fs, validatePathAccess fs roots cons fuel s = Except.error e := by
  have hlow : ∃ pat ∈ suspiciousPatterns, strContainsSub (lowerStr s) pat = true := by
    obtain ⟨pat, hmem, hc⟩ := List.any_eq_true.mp h
    simp only [claimPatterns, List.mem_cons, List.not_mem_nil, or_false] at hmem
    rcases hmem with rfl | rfl | rfl | rfl | rfl | rfl | rfl
    · exact ⟨"../", by decide, lowered_contains s "../" (by decide) hc⟩
    · exact ⟨"..\\", by decide, lowered_contains s "..\\" (by decide) hc⟩
    · exact ⟨"%2e%2e", by decide, lowered_contains s "%2e%2e" (by decide) hc⟩
    · exact ⟨"%2f", by decide, lowered_contains s "%2f" (by decide) hc⟩
    · exact ⟨"%5c", by decide, lowered_contains s "%5c" (by decide) hc⟩
    · exact ⟨"\\\\?\\", by decide, lowered_contains s "\\\\?\\" (by decide) hc⟩
    · exact ⟨"\\\\.", by decide, lowered_contains s "\\\\." (by decide) hc⟩
  obtain ⟨e, he⟩ := stringChecks_isSome_of_pattern cons s hlow
  refine ⟨e, fun fs => ?_⟩
  have hnorm : normalizePath fs cons fuel s = Except.error e := by
    unfold normalizePath
    rw [he]
  unfold validatePathAccess
  rw [hnorm]

/-- Witness for C3: scanning `/photos/../etc` under allowed root `/photos`
fails with one filesystem-independent security violation. -/
theorem c3_suspicious_rejected_witness :
    claimPatterns.any (fun pat => strContainsSub "/photos/../etc" pat) = true ∧
    ∃ e, ∀ fs, validatePathAccess fs rootsP defCons 64 "/photos/../etc" = Except.error e :=
  ⟨by decide, c3_suspicious_rejected rootsP defCons 64 "/photos/../etc" (by decide)⟩

/-! ## C2: symlink-escape rejection (code bug evidence) -/

/-- C2 (divergence witness): on `fsBounce` the candidate
`/photos/evil/back/img.jpg` has, walked from the matched allowed root
`/photos`, the first component `evil` as a symlink whose resolved target
`/outside` lies outside every allowed root, yet `validate_path_access`
accepts the path: the symlink-escape walk runs on the already-resolved path
(where no component can be a symlink), so an escape-and-return chain passes.
The claim requires validation to fail here. -/
theorem c2_escape_and_return_accepted :
    parsePath "/photos/evil/back/img.jpg" = ["photos", "evil", "back", "img.jpg"] ∧
    isSymlinkL fsBounce ["photos", "evil"] = true ∧
    resolvePath fsBounce 64 ["photos", "evil"] = Except.ok ["outside"] ∧
    rootsP.all (fun r => !(r.isPrefixOf ["outside"])) = true ∧
    validatePathAccess fsBounce rootsP defCons 64 "/photos/evil/back/img.jpg" =
      Except.ok () := by
  refine ⟨by decide, by rfl, by rfl, by decide, by rfl⟩

/-! ## C4: cancellation (code bug evidence) -/

/-- C4 (divergence witness): on a scan of two eligible files with
`cancel_scan` invoked while the scan runs, the processing loop never
observes the cancellation (its trace still contains both per-file progress
updates), and the final result has status FAILED — produced by the
`KeyError` from `del self._active_scans[scan_id]` — with zeroed counts, not
the CANCELLED status with partial progress that the claim requires.
`cancel_scan` itself only removes the registry entry. -/
theorem c4_cancel_yields_failed_not_cancelled :
    (scanDirectoryFull fsScan rootsP defCons 64 0 "/photos" {}
        (fun _ => Except.ok "md") true).status = ScanStatus.failed ∧
    (scanDirectoryFull fsScan rootsP defCons 64 0 "/photos" {}
        (fun _ => Except.ok "md") true).status ≠ ScanStatus.cancelled ∧
    (scanDirectoryFull fsScan rootsP defCons 64 0 "/photos" {}
        (fun _ => Except.ok "md") true).processed_files = 0 ∧
    (scanDirectoryFull fsScan rootsP defCons 64 0 "/photos" {}
        (fun _ => Except.ok "md") true).total_files = 0 ∧
    (scanFullCore fsScan rootsP defCons 64 0 "/photos" {}
        (fun _ => Except.ok "md") true).snd.length = 2 ∧
    cancelScan ["full_scan_0"] "full_scan_0" = ([], true) := by
  refine ⟨by rfl, by decide, by rfl, by rfl, by rfl, by rfl⟩

/-! ## C5: partial-failure isolation in the full scan -/

/-- Whether the external extractor succeeds on an entry. -/
def extractOkB (extract : String → Except String String) (e : FileSystemEntry) : Bool :=
  match extract (renderPath e.path) with
  | Except.ok _ => true
  | Except.error _ => false

lemma countP_self_add_not (p : FileSystemEntry → Bool) :
    ∀ l : List FileSystemEntry, l.countP p + l.countP (fun a => !(p a)) = l.length := by
  intro l
  induction l with
  | nil => simp
  | cons a t ih =>
    simp only [List.countP_cons, List.length_cons]
    cases hp : p a <;> simp [hp] <;> omega

lemma fullLoopAux_counts (extract : String → Except String String)
    (strat : ScanStrategy) :
    ∀ (files : List FileSystemEntry) (prog : ScanProgress),
      (fullLoopAux extract strat prog files).fst.processed_files =
        prog.processed_files + files.length ∧
      (fullLoopAux extract strat prog files).fst.successful_files =
        prog.successful_files + files.countP (extractOkB extract) ∧
      (fullLoopAux extract strat prog files).fst.failed_files =
        prog.failed_files + files.countP (fun e => !(extractOkB extract e)) ∧
      (fullLoopAux extract strat prog files).fst.errors.length =
        prog.errors.length + files.countP (fun e => !(extractOkB extract e)) ∧
      (fullLoopAux extract strat prog files).fst.total_files = prog.total_files := by
  intro files
  induction files with
  | nil =>
    intro prog
    simp [fullLoopAux]
  | cons e rest ih =>
    intro prog
    cases hx : extract (renderPath e.path) with
    | ok md =>
      have hok : extractOkB extract e = true := by simp [extractOkB, hx]
      have hrec := ih { prog with
        current_file := some (renderPath e.path),
        processed_files := prog.processed_files + 1,
        successful_files := prog.successful_files + 1 }
      simp only [fullLoopAux, hx] at hrec ⊢
      simp only [List.countP_cons, List.length_cons, hok]
      simp at hrec ⊢
      omega
    | error msg =>
      have hbad : extractOkB extract e = false := by simp [extractOkB, hx]
      have hrec := ih { prog with
        current_file := some (renderPath e.path),
        processed_files := prog.processed_files + 1,
        errors := prog.errors ++ ["Failed to process " ++ renderPath e.path ++ ": " ++ msg],
        failed_files := prog.failed_files + 1 }
      simp only [fullLoopAux, hx] at hrec ⊢
      simp only [List.countP_cons, List.length_cons, hbad]
      simp at hrec ⊢
      omega

/-- C5: in a FullMetadata scan over the accepted (and truncated) file list,
every file is attempted — the successful and failed counts are the counts of
extractor successes and failures over the whole list, so a failure at file k
does not stop files k+1..n — the final result satisfies
`successful_files + failed_files = processed_files`, each failure is
recorded as one per-file error, and `processed_files` covers the whole list. -/
theorem c5_partial_failure_isolation (fs : FS) (roots : List AbsPath)
    (cons : SecurityConstraints) (fuel now : Nat) (s : String)
    (opts : ScanOptions) (extract : String → Except String String)
    (hv : validateScanRequest fs roots cons fuel s opts = Except.ok ()) :
    (scanDirectoryFull fs roots cons fuel now s opts extract false).processed_files =
      (truncateFiles opts.max_files (getPhotoFiles fs roots cons fuel s opts.recursive)).length ∧
    (scanDirectoryFull fs roots cons fuel now s opts extract false).successful_files =
      (truncateFiles opts.max_files (getPhotoFiles fs roots cons fuel s opts.recursive)).countP
        (extractOkB extract) ∧
    (scanDirectoryFull fs roots cons fuel now s opts extract false).failed_files =
      (truncateFiles opts.max_files (getPhotoFiles fs roots cons fuel s opts.recursive)).countP
        (fun e => !(extractOkB extract e)) ∧
    (scanDirectoryFull fs roots cons fuel now s opts extract false).successful_files +
      (scanDirectoryFull fs roots cons fuel now s opts extract false).failed_files =
      (scanDirectoryFull fs roots cons fuel now s opts extract false).processed_files ∧
    (scanDirectoryFull fs roots cons fuel now s opts extract false).errors.length =
      (scanDirectoryFull fs roots cons fuel now s opts extract false).failed_files := by
  have hloop := fullLoopAux_counts extract opts.strategy
    (truncateFiles opts.max_files (getPhotoFiles fs roots cons fuel s opts.recursive))
    { start_time := some now,
      total_files :=
        (truncateFiles opts.max_files (getPhotoFiles fs roots cons fuel s opts.recursive)).length }
  have hcnt := countP_self_add_not (extractOkB extract)
    (truncateFiles opts.max_files (getPhotoFiles fs roots cons fuel s opts.recursive))
  unfold scanDirectoryFull scanFullCore
  rw [hv]
  simp only []
  simp at hloop
  refine ⟨?_, ?_, ?_, ?_, ?_⟩ <;> simp [hloop] <;> omega

/-- Witness for C5: on two eligible files with the extractor failing on the
first, the final counts balance. -/
def extractBad : String → Except String String :=
  fun p => if p == "/photos/a.jpg" then Except.error "boom" else Except.ok "md"

theorem c5_partial_failure_isolation_witness :
    validateScanRequest fsScan rootsP defCons 64 "/photos" {} = Except.ok () ∧
    (scanDirectoryFull fsScan rootsP defCons 64 0 "/photos" {} extractBad false).successful_files +
      (scanDirectoryFull fsScan rootsP defCons 64 0 "/photos" {} extractBad false).failed_files =
      (scanDirectoryFull fsScan rootsP defCons 64 0 "/photos" {} extractBad false).processed_files :=
  ⟨by rfl,
   (c5_partial_failure_isolation fsScan rootsP defCons 64 0 "/photos" {} extractBad
      (by rfl)).2.2.2.1⟩

/-! ## C7: max_files truncation before processing -/

lemma validateScanRequest_max_files_ne_zero (fs : FS) (roots : List AbsPath)
    (cons : SecurityConstraints) (fuel : Nat) (s : String) (opts : ScanOptions)
    (hv : validateScanRequest fs roots cons fuel s opts = Except.ok ())
    (h0 : opts.max_files = some 0) : False := by
  unfold validateScanRequest at hv
  split at hv
  · simp at hv
  · rw [h0] at hv
    split at hv
    · simp at hv
    · split at hv
      · simp at hv
      · simp at hv

lemma fastLoopAux_spec (strat : ScanStrategy) :
    ∀ (files : List FileSystemEntry) (prog : ScanProgress),
      (fastLoopAux strat prog files).snd.fst = files.map (fastRecordOf strat) ∧
      (fastLoopAux strat prog files).fst.processed_files =
        prog.processed_files + files.length ∧
      (fastLoopAux strat prog files).snd.snd.map (fun p => p.processed_files) =
        List.range' (prog.processed_files + 1) files.length ∧
      (∀ p ∈ (fastLoopAux strat prog files).snd.snd, p.total_files = prog.total_files) := by
  intro files
  induction files with
  | nil =>
    intro prog
    simp [fastLoopAux, List.range']
  | cons e rest ih =>
    intro prog
    have hrec := ih { prog with
      current_file := some (renderPath e.path),
      processed_files := prog.processed_files + 1,
      successful_files := prog.successful_files + 1 }
    simp only [fastLoopAux] at hrec ⊢
    simp only [List.range', List.map_cons, List.length_cons]
    simp at hrec ⊢
    refine ⟨hrec.1, by omega, ?_, ?_⟩
    · rw [hrec.2.2.1]
    · exact hrec.2.2.2

/-- C7: with `max_files = m` set (and the scan request valid, which forces
`m > 0`), the accepted-entry list is truncated to its first `m` entries in
traversal order before processing, for both scan strategies: the reported
totals equal `min m (number of eligible files)` and the fast scan's result
records are exactly the first `m` eligible entries. -/
theorem c7_max_files_truncation (fs : FS) (roots : List AbsPath)
    (cons : SecurityConstraints) (fuel now : Nat) (s : String) (opts : ScanOptions)
    (extract : String → Except String String) (m : Nat)
    (hm : opts.max_files = some m)
    (hv : validateScanRequest fs roots cons fuel s opts = Except.ok ()) :
    (scanDirectoryFast fs roots cons fuel now s opts false).total_files =
      min m (getPhotoFiles fs roots cons fuel s opts.recursive).length ∧
    (scanDirectoryFast fs roots cons fuel now s opts false).processed_files =
      min m (getPhotoFiles fs roots cons fuel s opts.recursive).length ∧
    (scanDirectoryFast fs roots cons fuel now s opts false).files =
      ((getPhotoFiles fs roots cons fuel s opts.recursive).take m).map
        (fastRecordOf opts.strategy) ∧
    (scanDirectoryFull fs roots cons fuel now s opts extract false).total_files =
      min m (getPhotoFiles fs roots cons fuel s opts.recursive).length ∧
    (scanDirectoryFull fs roots cons fuel now s opts extract false).processed_files =
      min m (getPhotoFiles fs roots cons fuel s opts.recursive).length := by
  have hm0 : m ≠ 0 := by
    intro h0
    exact validateScanRequest_max_files_ne_zero fs roots cons fuel s opts hv
      (by rw [hm, h0])
  have htr : truncateFiles opts.max_files (getPhotoFiles fs roots cons fuel s opts.recursive) =
      (getPhotoFiles fs roots cons fuel s opts.recursive).take m := by
    rw [hm]
    unfold truncateFiles
    simp [hm0]
  have hfastspec := fastLoopAux_spec opts.strategy
    (truncateFiles opts.max_files (getPhotoFiles fs roots cons fuel s opts.recursive))
    { start_time := some now,
      total_files :=
        (truncateFiles opts.max_files (getPhotoFiles fs roots cons fuel s opts.recursive)).length }
  have hfullspec := fullLoopAux_counts extract opts.strategy
    (truncateFiles opts.max_files (getPhotoFiles fs roots cons fuel s opts.recursive))
    { start_time := some now,
      total_files :=
        (truncateFiles opts.max_files (getPhotoFiles fs roots cons fuel s opts.recursive)).length }
  rw [htr] at hfastspec hfullspec
  simp only [List.length_take] at hfastspec hfullspec
  refine ⟨?_, ?_, ?_, ?_, ?_⟩
  · unfold scanDirectoryFast scanFastCore
    rw [hv]
    simp [hfastspec.1, htr, List.length_take]
  · unfold scanDirectoryFast scanFastCore
    rw [hv]
    simp [hfastspec.1, htr, List.length_take]
  · unfold scanDirectoryFast scanFastCore
    rw [hv]
    simp [hfastspec.1, htr, List.length_take]
  · unfold scanDirectoryFull scanFullCore
    rw [hv]
    simp [htr, List.length_take]
  · unfold scanDirectoryFull scanFullCore
    rw [hv]
    simp [hfullspec.1, htr, List.length_take]

/-- Witness for C7: ten eligible files with `max_files = 3` give
`total_files = 3` and exactly three processed entries. -/
theorem c7_max_files_truncation_witness :
    (getPhotoFiles fsTen rootsP defCons 64 "/photos" true).length = 10 ∧
    ({ max_files := some 3 : ScanOptions }.max_files = some 3) ∧
    validateScanRequest fsTen rootsP defCons 64 "/photos" { max_files := some 3 } =
      Except.ok () ∧
    (scanDirectoryFast fsTen rootsP defCons 64 0 "/photos" { max_files := some 3 }
      false).total_files =
      min 3 (getPhotoFiles fsTen rootsP defCons 64 "/photos"
        ({ max_files := some 3 : ScanOptions }).recursive).length :=
  ⟨by rfl, by rfl, by rfl,
   (c7_max_files_truncation fsTen rootsP defCons 64 0 "/photos" { max_files := some 3 }
      (fun _ => Except.ok "md") 3 (by rfl) (by rfl)).1⟩

/-! ## C8: progress monotonicity and percent bounds -/

lemma chain_le_range' : ∀ (n s : Nat), List.Chain' (· ≤ ·) (List.range' s n) := by
  intro n
  induction n with
  | zero =>
    intro s
    simp [List.range']
  | succ k ih =>
    intro s
    rw [List.range']
    rw [List.chain'_cons']
    refine ⟨?_, ih (s + 1)⟩
    intro y hy
    cases k with
    | zero => simp [List.range'] at hy
    | succ k2 =>
      rw [List.range'] at hy
      simp at hy
      omega

lemma progressPercent_bounds (p : ScanProgress) (h : p.processed_files ≤ p.total_files) :
    0 ≤ progressPercent p ∧ progressPercent p ≤ 100 := by
  unfold progressPercent
  split
  · norm_num
  · rename_i h0
    have htpos : (0 : ℚ) < (p.total_files : ℚ) := by
      exact_mod_cast Nat.pos_of_ne_zero h0
    have hle : (p.processed_files : ℚ) ≤ (p.total_files : ℚ) := by exact_mod_cast h
    have hdiv : (p.processed_files : ℚ) / (p.total_files : ℚ) ≤ 1 :=
      (div_le_one htpos).mpr hle
    have hdiv0 : 0 ≤ (p.processed_files : ℚ) / (p.total_files : ℚ) :=
      div_nonneg (by positivity) (le_of_lt htpos)
    constructor
    · nlinarith
    · nlinarith

/-- C8: along any single fast scan, the sequence of per-file progress
updates has non-decreasing `processed_files` never exceeding `total_files`,
and `progress_percent` — which equals `processed/total*100` when
`total_files > 0` and `0` when `total_files = 0` — always lies in [0, 100]. -/
theorem c8_progress_monotonicity (fs : FS) (roots : List AbsPath)
    (cons : SecurityConstraints) (fuel now : Nat) (s : String) (opts : ScanOptions)
    (hv : validateScanRequest fs roots cons fuel s opts = Except.ok ()) :
    List.Chain' (fun a b => a.processed_files ≤ b.processed_files)
      (scanFastCore fs roots cons fuel now s opts false).snd ∧
    (∀ p ∈ (scanFastCore fs roots cons fuel now s opts false).snd,
      p.processed_files ≤ p.total_files ∧
      0 ≤ progressPercent p ∧ progressPercent p ≤ 100) ∧
    (∀ p : ScanProgress, p.total_files = 0 → progressPercent p = 0) ∧
    (∀ p : ScanProgress, p.total_files ≠ 0 →
      progressPercent p = ((p.processed_files : ℚ) / (p.total_files : ℚ)) * 100) := by
  have hspec := fastLoopAux_spec opts.strategy
    (truncateFiles opts.max_files (getPhotoFiles fs roots cons fuel s opts.recursive))
    { start_time := some now,
      total_files :=
        (truncateFiles opts.max_files (getPhotoFiles fs roots cons fuel s opts.recursive)).length }
  have htrace :
      (scanFastCore fs roots cons fuel now s opts false).snd =
      (fastLoopAux opts.strategy
        { start_time := some now,
          total_files :=
            (truncateFiles opts.max_files (getPhotoFiles fs roots cons fuel s opts.recursive)).length }
        (truncateFiles opts.max_files (getPhotoFiles fs roots cons fuel s opts.recursive))).snd.snd := by
    unfold scanFastCore
    rw [hv]
    rfl
  have hmem : ∀ p ∈ (scanFastCore fs roots cons fuel now s opts false).snd,
      p.processed_files ≤ p.total_files := by
    intro p hp
    rw [htrace] at hp
    have hmap := List.mem_map_of_mem (fun q : ScanProgress => q.processed_files) hp
    rw [hspec.2.2.1] at hmap
    have hb := List.mem_range'_1.mp hmap
    have ht := hspec.2.2.2 p hp
    simp at ht hb
    omega
  refine ⟨?_, ?_, ?_, ?_⟩
  · rw [htrace]
    have hchain : List.Chain' (· ≤ ·)
        ((fastLoopAux opts.strategy
          { start_time := some now,
            total_files :=
              (truncateFiles opts.max_files (getPhotoFiles fs roots cons fuel s opts.recursive)).length }
          (truncateFiles opts.max_files
            (getPhotoFiles fs roots cons fuel s opts.recursive))).snd.snd.map
          (fun p : ScanProgress => p.processed_files)) := by
      rw [hspec.2.2.1]
      exact chain_le_range' _ _
    exact (List.chain'_map (fun p : ScanProgress => p.processed_files)).mp hchain
  · intro p hp
    have h1 := hmem p hp
    exact ⟨h1, progressPercent_bounds p h1⟩
  · intro p h0
    simp [progressPercent, h0]
  · intro p h0
    simp [progressPercent, h0]

/-- Witness for C8: the two-file fast scan's trace satisfies the bounds. -/
theorem c8_progress_monotonicity_witness :
    validateScanRequest fsScan rootsP defCons 64 "/photos" {} = Except.ok () ∧
    (∀ p ∈ (scanFastCore fsScan rootsP defCons 64 0 "/photos" {} false).snd,
      p.processed_files ≤ p.total_files ∧
      0 ≤ progressPercent p ∧ progressPercent p ≤ 100) :=
  ⟨by rfl,
   (c8_progress_monotonicity fsScan rootsP defCons 64 0 "/photos" {} (by rfl)).2.1⟩

/-! ## C9: the INCREMENTAL strategy falls through to the full scan -/

lemma scanDirectoryFull_strategy (fs : FS) (roots : List AbsPath)
    (cons : SecurityConstraints) (fuel now : Nat) (s : String) (opts : ScanOptions)
    (extract : String → Except String String) (cancel : Bool) :
    (scanDirectoryFull fs roots cons fuel now s opts extract cancel).strategy =
      opts.strategy := by
  unfold scanDirectoryFull scanFullCore
  split
  · rfl
  · dsimp only
    split
    · rfl
    · rfl

/-- C9: scanning with strategy INCREMENTAL produces exactly the result of
scanning with strategy FULL_METADATA on the same inputs (the case falls
through after overwriting the options' strategy), and the returned result
reports strategy FULL_METADATA, not INCREMENTAL. -/
theorem c9_incremental_equals_full (fs : FS) (roots : List AbsPath)
    (cons : SecurityConstraints) (fuel now : Nat) (s : String) (opts : ScanOptions)
    (extract : String → Except String String) (cancel : Bool) :
    scanDirectory fs roots cons fuel now s
        { opts with strategy := ScanStrategy.incremental } extract cancel =
      scanDirectory fs roots cons fuel now s
        { opts with strategy := ScanStrategy.full_metadata } extract cancel ∧
    (scanDirectory fs roots cons fuel now s
        { opts with strategy := ScanStrategy.incremental } extract cancel).strategy =
      ScanStrategy.full_metadata ∧
    (scanDirectory fs roots cons fuel now s
        { opts with strategy := ScanStrategy.incremental } extract cancel).strategy ≠
      ScanStrategy.incremental := by
  have h1 : scanDirectory fs roots cons fuel now s
      { opts with strategy := ScanStrategy.incremental } extract cancel =
      scanDirectoryFull fs roots cons fuel now s
        { opts with strategy := ScanStrategy.full_metadata } extract cancel := rfl
  have h2 : scanDirectory fs roots cons fuel now s
      { opts with strategy := ScanStrategy.full_metadata } extract cancel =
      scanDirectoryFull fs roots cons fuel now s
        { opts with strategy := ScanStrategy.full_metadata } extract cancel := rfl
  have h3 := scanDirectoryFull_strategy fs roots cons fuel now s
    { opts with strategy := ScanStrategy.full_metadata } extract cancel
  refine ⟨h1.trans h2.symm, ?_, ?_⟩
  · rw [h1, h3]
  · rw [h1, h3]
    intro hcontra
    cases hcontra

/-! ## C10: list_directory returns the empty list on any denied input -/

/-- C10: `list_directory` is a total function into lists, and whenever
security validation fails or the (normalized) path is not a directory it
returns `[]` — indistinguishable from an empty directory listing. -/
theorem c10_list_directory_denied_is_empty (fs : FS) (roots : List AbsPath)
    (cons : SecurityConstraints) (fuel : Nat) (s : String) (recursive : Bool)
    (maxDepth : Option Nat)
    (h : (∃ e, validatePathAccess fs roots cons fuel s = Except.error e) ∨
         (∀ n, normalizePath fs cons fuel s = Except.ok n → isDirF fs fuel n = false)) :
    listDirectory fs roots cons fuel s recursive maxDepth = [] := by
  unfold listDirectory
  rcases h with ⟨e, he⟩ | hnd
  · rw [he]
  · split
    · rfl
    · split
      · rfl
      · rename_i n hn
        rw [hnd n hn]
        simp

/-- Witness for C10: listing `/etc/passwd` (outside the sandbox) yields `[]`. -/
theorem c10_list_directory_denied_is_empty_witness :
    (∃ e, validatePathAccess fsGood rootsP defCons 64 "/etc/passwd" = Except.error e) ∧
    listDirectory fsGood rootsP defCons 64 "/etc/passwd" true none = [] :=
  ⟨⟨SecErr.notAllowed, by rfl⟩,
   c10_list_directory_denied_is_empty fsGood rootsP defCons 64 "/etc/passwd" true none
     (Or.inl ⟨SecErr.notAllowed, by rfl⟩)⟩

/-! ## C6: error field of NO_ACCESS entries (corrected) -/

/-- Counterexample to C6: `/photos/big.jpg` has an allowed extension (so it
is not "merely filtered") and is rejected for exceeding the size limit, yet
its `FileSystemEntry` carries `access_level = NO_ACCESS` with `error = None`:
`_check_file_constraints` only returns an access level and `get_file_info`
builds the entry without an error string. -/
theorem c6_size_reject_has_no_error :
    (getFileInfo fsBig rootsP defCons 64 "/photos/big.jpg").access_level =
      AccessLevel.no_access ∧
    (getFileInfo fsBig rootsP defCons 64 "/photos/big.jpg").error = none ∧
    defCons.allowed_extensions.contains (suffixLower ["photos", "big.jpg"]) = true ∧
    fsBig.node ["photos", "big.jpg"] = some (FNode.file 629145600 5 true) ∧
    defCons.max_file_size_mb * 1024 * 1024 < 629145600 := by
  refine ⟨by rfl, by rfl, by decide, by rfl, by decide⟩

lemma secErrMsg_ne_empty (e : SecErr) : secErrMsg e ≠ "" := by
  cases e
  case suspicious pat =>
    intro h
    simp only [secErrMsg] at h
    have hd : ("Suspicious path pattern detected: ").data ++ pat.data = [] :=
      congrArg String.data h
    rcases List.append_eq_nil.mp hd with ⟨h1, _⟩
    exact absurd h1 (by decide)
  all_goals decide

/-- C6 as amended: an entry produced by `get_file_info` carries a non-empty
error string exactly in the security-violation and file-not-found branches;
every entry for an existing file that passed validation — including those
rejected by `_check_file_constraints` for size, extension or read
permission — has `error = None`. -/
theorem c6_amended_error_field (fs : FS) (roots : List AbsPath)
    (cons : SecurityConstraints) (fuel : Nat) (s : String)
    (hval : validatePathAccess fs roots cons fuel s = Except.ok ()) :
    (∀ n st, normalizePath fs cons fuel s = Except.ok n →
      statNode fs fuel n = some st →
      (getFileInfo fs roots cons fuel s).error = none) ∧
    (∀ m, (getFileInfo fs roots cons fuel s).error = some m → m ≠ "") := by
  constructor
  · intro n st hn hst
    unfold getFileInfo
    rw [hval]
    dsimp only
    rw [hn]
    dsimp only
    rw [hst]
  · intro m hm
    unfold getFileInfo at hm
    rw [hval] at hm
    dsimp only at hm
    split at hm
    · simp at hm
      rw [← hm]
      exact secErrMsg_ne_empty _
    · split at hm
      · simp at hm
        rw [← hm]
        decide
      · simp at hm

/-- Witness for the amended C6: the oversized photo passes validation and
exists, and its NO_ACCESS entry indeed carries `error = None`. -/
theorem c6_amended_error_field_witness :
    validatePathAccess fsBig rootsP defCons 64 "/photos/big.jpg" = Except.ok () ∧
    (getFileInfo fsBig rootsP defCons 64 "/photos/big.jpg").error = none :=
  ⟨by rfl,
   (c6_amended_error_field fsBig rootsP defCons 64 "/photos/big.jpg" (by rfl)).1
     ["photos", "big.jpg"] (FNode.file 629145600 5 true) (by rfl) (by rfl)⟩
